import Mathlib

/-!
Verification development for the Lambdust benchmark runner
(`run_comprehensive_benchmarks.py` and `scripts/process_results.py`).

The Python modules are shallowly embedded here: Python floats are modelled
as rationals (with `Real.sqrt` where the source takes a square root),
Python dicts keyed by strings are modelled as insertion-ordered association
lists (`aset` reproduces dict assignment: replace in place, or append a
fresh key at the end), and code that can raise is modelled in `Except`.
-/

/-- A typed scalar parameter value, as it appears in the benchmark
configuration (`value_def['value']`). -/
inductive PValue where
  | int (n : ℤ)
  | float (q : ℚ)
  | str (s : String)
  | bool (b : Bool)
deriving DecidableEq, Repr

/-- One `value_def` entry of a parameter: a `'type'` tag and a `'value'`. -/
structure VDef where
  vtype : String
  value : PValue
deriving DecidableEq, Repr

/-- One entry of a test's declared parameter schema: a name and its ordered
list of typed values. -/
structure Param where
  name : String
  values : List VDef
deriving DecidableEq, Repr

/-- A parameter combination: a Python dict from parameter name to value,
modelled as an insertion-ordered association list. -/
abbrev Combo := List (String × PValue)

/-- Python dict assignment `d[k] = v` on an insertion-ordered association
list: if the key is present its value is replaced in place, otherwise the
new binding is appended at the end. -/
def aset {α : Type} (d : List (String × α)) (k : String) (v : α) :
    List (String × α) :=
  if d.any (fun p => p.1 = k) then
    d.map (fun p => if p.1 = k then (k, v) else p)
  else d ++ [(k, v)]

/-- Python dict read `d.get(k)`. -/
def aget {α : Type} (d : List (String × α)) (k : String) : Option α :=
  (d.find? (fun p => p.1 = k)).map (fun p => p.2)

/-- The `if/elif` chain of `generate_parameter_combinations`: the four
supported type tags all extract `value_def['value']`; any other tag hits
the `else: continue` branch. -/
def extractValue (vd : VDef) : Option PValue :=
  if vd.vtype = "Integer" then some vd.value
  else if vd.vtype = "Float" then some vd.value
  else if vd.vtype = "String" then some vd.value
  else if vd.vtype = "Boolean" then some vd.value
  else none

/-- One pass of the `for param in parameters` loop body: the value loop is
the outer loop and the existing-combination loop the inner one, so the new
parameter becomes the slowest-varying coordinate. -/
def expandParam (combos : List Combo) (p : Param) : List Combo :=
  p.values.flatMap (fun vd =>
    match extractValue vd with
    | some v => combos.map (fun c => aset c p.name v)
    | none => [])

/-- `BenchmarkRunner.generate_parameter_combinations`: starting from the
single empty combination, fold the loop body over the declared parameters
(an empty schema returns `[{}]` at once). -/
def generate_parameter_combinations (ps : List Param) : List Combo :=
  if ps.isEmpty then [[]] else ps.foldl expandParam [[]]

/-- The order stated by the amended ordering claim, written from the spec's
words: combinations are lexicographic over the REVERSED declaration order
of parameters — the last declared parameter varies slowest and the first
varies fastest — while each combination still lists its bindings in
declaration order. -/
def lexCombosRev : List Param → List Combo
  | [] => [[]]
  | p :: ps =>
      (lexCombosRev ps).flatMap (fun t =>
        p.values.map (fun vd => (p.name, vd.value) :: t))

/-- The four type tags accepted by the expander's `if/elif` chain. -/
def supportedType (t : String) : Bool :=
  t = "Integer" || t = "Float" || t = "String" || t = "Boolean"

lemma extractValue_supported {vd : VDef} (h : supportedType vd.vtype = true) :
    extractValue vd = some vd.value := by
  simp only [supportedType, Bool.or_eq_true, decide_eq_true_eq] at h
  rcases h with ((h | h) | h) | h <;> simp [extractValue, h]

lemma extractValue_unsupported {vd : VDef} (h : supportedType vd.vtype = false) :
    extractValue vd = none := by
  simp only [supportedType, Bool.or_eq_false_iff, decide_eq_false_iff_not] at h
  obtain ⟨⟨⟨h1, h2⟩, h3⟩, h4⟩ := h
  simp [extractValue, h1, h2, h3, h4]

lemma aset_fresh {α : Type} {d : List (String × α)} {k : String}
    (h : ∀ p ∈ d, p.1 ≠ k) (v : α) : aset d k v = d ++ [(k, v)] := by
  have hany : d.any (fun p => p.1 = k) = false := by
    simp only [List.any_eq_false, decide_eq_true_eq]
    exact h
  simp [aset, hany]

lemma foldl_expand_eq (ps : List Param) :
    ∀ (C : List Combo) (ks : List String),
    (∀ c ∈ C, c.map Prod.fst = ks) →
    (∀ p ∈ ps, ∀ vd ∈ p.values, supportedType vd.vtype = true) →
    (∀ p ∈ ps, p.name ∉ ks) →
    (ps.map Param.name).Nodup →
    ps.foldl expandParam C =
      (lexCombosRev ps).flatMap (fun t => C.map (fun c => c ++ t)) := by
  induction ps with
  | nil => intro C ks _ _ _ _; simp [lexCombosRev]
  | cons p ps ih =>
    intro C ks hC hsup hfresh hnodup
    have hpmem : p ∈ p :: ps := List.mem_cons_self ..
    have hstep : expandParam C p =
        p.values.flatMap (fun vd => C.map (fun c => c ++ [(p.name, vd.value)])) := by
      unfold expandParam
      refine List.flatMap_congr (fun vd hvd => ?_)
      rw [extractValue_supported (hsup p hpmem vd hvd)]
      refine List.map_congr_left (fun c hc => ?_)
      refine aset_fresh (fun q hq hqk => ?_) _
      refine hfresh p hpmem ?_
      rw [← hC c hc]
      exact hqk ▸ List.mem_map_of_mem Prod.fst hq
    have hkeys : ∀ c' ∈ expandParam C p, c'.map Prod.fst = ks ++ [p.name] := by
      rw [hstep]
      intro c' hc'
      simp only [List.mem_flatMap, List.mem_map] at hc'
      obtain ⟨vd, _, c, hc, rfl⟩ := hc'
      simp [hC c hc]
    have hnames : p.name ∉ ps.map Param.name := (List.nodup_cons.1 hnodup).1
    have ihs := ih (expandParam C p) (ks ++ [p.name]) hkeys
      (fun q hq vd hvd => hsup q (List.mem_cons_of_mem _ hq) vd hvd)
      (fun q hq => by
        simp only [List.mem_append, List.mem_singleton]
        rintro (h | h)
        · exact hfresh q (List.mem_cons_of_mem _ hq) h
        · exact hnames (h ▸ List.mem_map_of_mem Param.name hq))
      (List.nodup_cons.1 hnodup).2
    calc (p :: ps).foldl expandParam C = ps.foldl expandParam (expandParam C p) := rfl
      _ = (lexCombosRev ps).flatMap
            (fun t => (expandParam C p).map (fun c => c ++ t)) := ihs
      _ = (lexCombosRev (p :: ps)).flatMap (fun t => C.map (fun c => c ++ t)) := by
          rw [hstep]
          simp only [lexCombosRev, List.flatMap_assoc, List.flatMap_map,
            List.map_flatMap, List.map_map, Function.comp_def, List.append_assoc,
            List.singleton_append]

lemma gen_eq_lex {ps : List Param}
    (hsup : ∀ p ∈ ps, ∀ vd ∈ p.values, supportedType vd.vtype = true)
    (hnodup : (ps.map Param.name).Nodup) :
    generate_parameter_combinations ps = lexCombosRev ps := by
  unfold generate_parameter_combinations
  rcases hps : ps with _ | ⟨p, ps'⟩
  · simp [lexCombosRev]
  · rw [if_neg (by simp)]
    rw [foldl_expand_eq (p :: ps') [[]] [] (by simp) (hps ▸ hsup) (by simp) (hps ▸ hnodup)]
    simp

lemma length_expandParam {p : Param} (C : List Combo)
    (hsup : ∀ vd ∈ p.values, supportedType vd.vtype = true) :
    (expandParam C p).length = p.values.length * C.length := by
  unfold expandParam
  rw [List.length_flatMap]
  have : ∀ vd ∈ p.values,
      (match extractValue vd with
        | some v => C.map (fun c => aset c p.name v)
        | none => ([] : List Combo)).length = C.length := by
    intro vd hvd
    rw [extractValue_supported (hsup vd hvd)]
    simp
  calc (p.values.map (fun vd =>
          (match extractValue vd with
            | some v => C.map (fun c => aset c p.name v)
            | none => ([] : List Combo)).length)).sum
      = (p.values.map (fun _ => C.length)).sum := by
        exact congrArg List.sum (List.map_congr_left this)
    _ = p.values.length * C.length := by
        rw [List.map_const', List.sum_replicate, smul_eq_mul]

lemma length_foldl_expand (ps : List Param) :
    ∀ (C : List Combo),
    (∀ p ∈ ps, ∀ vd ∈ p.values, supportedType vd.vtype = true) →
    (ps.foldl expandParam C).length =
      C.length * (ps.map (fun p => p.values.length)).prod := by
  induction ps with
  | nil => intro C _; simp
  | cons p ps ih =>
    intro C hsup
    have h1 : (p :: ps).foldl expandParam C = ps.foldl expandParam (expandParam C p) := rfl
    rw [h1, ih (expandParam C p) (fun q hq => hsup q (List.mem_cons_of_mem _ hq)),
      length_expandParam C (hsup p (List.mem_cons_self ..))]
    simp [List.map_cons, List.prod_cons]
    ring

lemma nodup_lexCombosRev {ps : List Param}
    (hvals : ∀ p ∈ ps, (p.values.map VDef.value).Nodup) :
    (lexCombosRev ps).Nodup := by
  induction ps with
  | nil => simp [lexCombosRev]
  | cons p ps ih =>
    rw [lexCombosRev, List.nodup_flatMap]
    refine ⟨fun t _ => ?_, ?_⟩
    · have hmm : p.values.map (fun vd => (p.name, vd.value) :: t) =
          (p.values.map VDef.value).map (fun v => (p.name, v) :: t) := by
        simp [List.map_map]
      rw [hmm]
      refine (hvals p (List.mem_cons_self ..)).map (fun v v' h => ?_)
      simpa using h
    · have hnd := ih (fun q hq => hvals q (List.mem_cons_of_mem _ hq))
      refine List.Pairwise.imp ?_ hnd
      intro t t' hne x hx hx'
      simp only [List.mem_map] at hx hx'
      obtain ⟨vd, _, rfl⟩ := hx
      obtain ⟨vd', _, h⟩ := hx'
      injection h with _ h2
      exact hne h2.symm

lemma extract_all_none_of_empty {p : Param}
    (h : p.values = [] ∨ ∀ vd ∈ p.values, supportedType vd.vtype = false) :
    expandParam C p = [] := by
  rcases h with h | h
  · simp [expandParam, h]
  · unfold expandParam
    rw [List.flatMap_eq_nil_iff]
    intro vd hvd
    rw [extractValue_unsupported (h vd hvd)]

lemma expandParam_nil (p : Param) : expandParam [] p = [] := by
  unfold expandParam
  rw [List.flatMap_eq_nil_iff]
  intro vd _
  rcases extractValue vd <;> simp

lemma foldl_expand_nil (ps : List Param) : ps.foldl expandParam [] = [] := by
  induction ps with
  | nil => rfl
  | cons p ps ih =>
    show ps.foldl expandParam (expandParam [] p) = []
    rw [expandParam_nil]
    exact ih

/-- Claim C10: a schema containing a parameter whose value list is empty, or
whose values are all of an unsupported type, expands to zero combinations
for the whole schema. -/
theorem C10_empty_param_yields_no_combinations {ps : List Param} {p : Param}
    (hp : p ∈ ps)
    (h : p.values = [] ∨ ∀ vd ∈ p.values, supportedType vd.vtype = false) :
    generate_parameter_combinations ps = [] := by
  obtain ⟨l1, l2, rfl⟩ := List.append_of_mem hp
  unfold generate_parameter_combinations
  rw [if_neg (by simp), List.foldl_append]
  have h0 : expandParam (l1.foldl expandParam [[]]) p = [] :=
    extract_all_none_of_empty h
  show l2.foldl expandParam (expandParam (l1.foldl expandParam [[]]) p) = []
  rw [h0]
  exact foldl_expand_nil l2

theorem C10_empty_param_yields_no_combinations_witness :
    ((⟨"size", []⟩ : Param) ∈
        [(⟨"depth", [⟨"Integer", .int 3⟩]⟩ : Param), ⟨"size", []⟩] ∧
      (([] : List VDef) = [] ∨
        ∀ vd ∈ ([] : List VDef), supportedType vd.vtype = false)) ∧
    generate_parameter_combinations
      [(⟨"depth", [⟨"Integer", .int 3⟩]⟩ : Param), ⟨"size", []⟩] = [] :=
  ⟨⟨by decide, Or.inl rfl⟩,
    @C10_empty_param_yields_no_combinations
      [(⟨"depth", [⟨"Integer", .int 3⟩]⟩ : Param), ⟨"size", []⟩]
      ⟨"size", []⟩ (by decide) (Or.inl rfl)⟩

/-- Claim C3, counterexample: for the two-parameter schema
`p1 ∈ {0, 1}`, `p2 ∈ {10, 11}` the expander emits the combinations with the
FIRST parameter varying fastest, which differs from the order the claim
states (first declared parameter varying slowest). -/
theorem C3_counterexample :
    generate_parameter_combinations
      [⟨"p1", [⟨"Integer", .int 0⟩, ⟨"Integer", .int 1⟩]⟩,
       ⟨"p2", [⟨"Integer", .int 10⟩, ⟨"Integer", .int 11⟩]⟩] =
      [[("p1", .int 0), ("p2", .int 10)], [("p1", .int 1), ("p2", .int 10)],
       [("p1", .int 0), ("p2", .int 11)], [("p1", .int 1), ("p2", .int 11)]] ∧
    ([[("p1", PValue.int 0), ("p2", PValue.int 10)],
      [("p1", PValue.int 1), ("p2", PValue.int 10)],
      [("p1", PValue.int 0), ("p2", PValue.int 11)],
      [("p1", PValue.int 1), ("p2", PValue.int 11)]] : List Combo) ≠
      [[("p1", .int 0), ("p2", .int 10)], [("p1", .int 0), ("p2", .int 11)],
       [("p1", .int 1), ("p2", .int 10)], [("p1", .int 1), ("p2", .int 11)]] := by
  constructor
  · decide
  · decide

/-- Claim C3 as amended: for a schema of supported values with distinct
parameter names, the expander emits the combinations in lexicographic order
over the REVERSED declaration order of the parameters — the last declared
parameter varies slowest, the first varies fastest — and within a fixed
assignment to the later parameters the values of each parameter appear in
their declared order (the order `lexCombosRev` enumerates). -/
theorem C3_combination_order {ps : List Param}
    (hsup : ∀ p ∈ ps, ∀ vd ∈ p.values, supportedType vd.vtype = true)
    (hnodup : (ps.map Param.name).Nodup) :
    generate_parameter_combinations ps = lexCombosRev ps :=
  gen_eq_lex hsup hnodup

theorem C3_combination_order_witness :
    ((∀ p ∈ [(⟨"p1", [⟨"Integer", .int 0⟩, ⟨"Integer", .int 1⟩]⟩ : Param),
              ⟨"p2", [⟨"Integer", .int 10⟩, ⟨"Integer", .int 11⟩]⟩],
        ∀ vd ∈ p.values, supportedType vd.vtype = true) ∧
      (([(⟨"p1", [⟨"Integer", .int 0⟩, ⟨"Integer", .int 1⟩]⟩ : Param),
         ⟨"p2", [⟨"Integer", .int 10⟩, ⟨"Integer", .int 11⟩]⟩].map
            Param.name).Nodup)) ∧
    generate_parameter_combinations
      [(⟨"p1", [⟨"Integer", .int 0⟩, ⟨"Integer", .int 1⟩]⟩ : Param),
       ⟨"p2", [⟨"Integer", .int 10⟩, ⟨"Integer", .int 11⟩]⟩] =
      lexCombosRev
        [(⟨"p1", [⟨"Integer", .int 0⟩, ⟨"Integer", .int 1⟩]⟩ : Param),
         ⟨"p2", [⟨"Integer", .int 10⟩, ⟨"Integer", .int 11⟩]⟩] :=
  ⟨⟨by decide, by decide⟩, C3_combination_order (by decide) (by decide)⟩

/-- Claim C6: with every declared value of a supported type, the expander
produces exactly the product of the per-parameter value counts; with the
schema's set semantics (distinct parameter names, distinct values within a
parameter) each combination is unique; and the empty schema yields exactly
one combination, the empty mapping. -/
theorem C6_cross_product_count {ps : List Param}
    (hsup : ∀ p ∈ ps, ∀ vd ∈ p.values, supportedType vd.vtype = true)
    (hnodup : (ps.map Param.name).Nodup)
    (hvals : ∀ p ∈ ps, (p.values.map VDef.value).Nodup) :
    (generate_parameter_combinations ps).length =
        (ps.map (fun p => p.values.length)).prod ∧
      (generate_parameter_combinations ps).Nodup ∧
      generate_parameter_combinations [] = [[]] := by
  refine ⟨?_, ?_, rfl⟩
  · unfold generate_parameter_combinations
    rcases ps with _ | ⟨p, ps'⟩
    · simp
    · rw [if_neg (by simp), length_foldl_expand _ _ hsup]
      simp
  · rw [gen_eq_lex hsup hnodup]
    exact nodup_lexCombosRev hvals

theorem C6_cross_product_count_witness :
    ((∀ p ∈ [(⟨"p1", [⟨"Integer", .int 0⟩, ⟨"Integer", .int 1⟩]⟩ : Param),
              ⟨"p2", [⟨"Integer", .int 10⟩, ⟨"Integer", .int 11⟩,
                      ⟨"Integer", .int 12⟩]⟩],
        ∀ vd ∈ p.values, supportedType vd.vtype = true) ∧
      (([(⟨"p1", [⟨"Integer", .int 0⟩, ⟨"Integer", .int 1⟩]⟩ : Param),
         ⟨"p2", [⟨"Integer", .int 10⟩, ⟨"Integer", .int 11⟩,
                 ⟨"Integer", .int 12⟩]⟩].map Param.name).Nodup) ∧
      (∀ p ∈ [(⟨"p1", [⟨"Integer", .int 0⟩, ⟨"Integer", .int 1⟩]⟩ : Param),
              ⟨"p2", [⟨"Integer", .int 10⟩, ⟨"Integer", .int 11⟩,
                      ⟨"Integer", .int 12⟩]⟩],
        (p.values.map VDef.value).Nodup)) ∧
    ((generate_parameter_combinations
        [(⟨"p1", [⟨"Integer", .int 0⟩, ⟨"Integer", .int 1⟩]⟩ : Param),
         ⟨"p2", [⟨"Integer", .int 10⟩, ⟨"Integer", .int 11⟩,
                 ⟨"Integer", .int 12⟩]⟩]).length =
        ([(⟨"p1", [⟨"Integer", .int 0⟩, ⟨"Integer", .int 1⟩]⟩ : Param),
          ⟨"p2", [⟨"Integer", .int 10⟩, ⟨"Integer", .int 11⟩,
                  ⟨"Integer", .int 12⟩]⟩].map (fun p => p.values.length)).prod ∧
      (generate_parameter_combinations
        [(⟨"p1", [⟨"Integer", .int 0⟩, ⟨"Integer", .int 1⟩]⟩ : Param),
         ⟨"p2", [⟨"Integer", .int 10⟩, ⟨"Integer", .int 11⟩,
                 ⟨"Integer", .int 12⟩]⟩]).Nodup ∧
      generate_parameter_combinations [] = [[]]) :=
  ⟨⟨by decide, by decide, by decide⟩,
    C6_cross_product_count (by decide) (by decide) (by decide)⟩

/-- One timed invocation of `execute_test_file` as the sandbox observes it:
the wall-clock elapsed seconds, the success flag (`returncode == 0`, or
false on timeout/exception), and the captured stderr text. -/
structure IterRun where
  elapsed : ℚ
  ok : Bool
  err : String
deriving DecidableEq, Repr

/-- The measurement loop of `run_single_test`: append the elapsed time of
every successful invocation, and `break` out of the loop at the first
failed one. -/
def collectTimings : List IterRun → List ℚ
  | [] => []
  | it :: rest => if it.ok then it.elapsed :: collectTimings rest else []

/-- The record `run_single_test` returns.  Fields only present in one of
the two result dicts of the source are `Option`-valued. -/
structure ExecutionResult where
  implementation : String
  test_name : String
  category : String
  parameters : Combo
  success : Bool
  mean_time_seconds : Option ℚ
  ops_per_second : Option ℚ
  timing_results : List ℚ
  iterations : Option ℕ
  error : Option String
deriving DecidableEq, Repr

/-- The error text of the failure branch when at least one timed iteration
ran: the stderr captured from the iteration the loop stopped at
(`error or 'Test execution failed'`, with the empty string falling back to
the default). -/
def failureText (it : IterRun) : String :=
  if it.err = "" then "Test execution failed" else it.err

/-- `BenchmarkRunner.run_single_test`, parameterized by the outcome each
timed invocation would have (the subprocess behaviour is an input of the
model; warmup runs are untimed and discarded by the source, so they do not
appear).  After the loop: with a non-empty timing list the run reports
`success = True` together with mean time and ops/second; with an empty one
it builds the `success = False` dict, whose `'error': error or ...` entry
reads the loop variable `error` — bound only if at least one timed
iteration ran, so with zero timed iterations the source raises
`UnboundLocalError` instead of returning (modelled as `Except.error`). -/
def run_single_test (impl testName category : String) (params : Combo)
    (iters : List IterRun) : Except String ExecutionResult :=
  let timing_results := collectTimings iters
  if timing_results.isEmpty then
    match iters with
    | [] => .error "UnboundLocalError"
    | it :: _ =>
        .ok { implementation := impl, test_name := testName
              category := category, parameters := params, success := false
              mean_time_seconds := none, ops_per_second := none
              timing_results := [], iterations := none
              error := some (failureText it) }
  else
    let mean_time := timing_results.sum / (timing_results.length : ℚ)
    .ok { implementation := impl, test_name := testName, category := category
          parameters := params, success := true
          mean_time_seconds := some mean_time
          ops_per_second := some (if mean_time > 0 then 1 / mean_time else 0)
          timing_results := timing_results
          iterations := some timing_results.length, error := none }

/-- Claim C2, counterexample: one successful iteration (1s) followed by a
failing one produces a result with `success = true` (not `false` as the
claim states) that carries the one collected timing sample. -/
theorem C2_counterexample :
    (run_single_test "lambdust" "fib" "micro" []
        [⟨1, true, ""⟩, ⟨2, false, "boom"⟩]).toOption.map
        ExecutionResult.success = some true ∧
    (run_single_test "lambdust" "fib" "micro" []
        [⟨1, true, ""⟩, ⟨2, false, "boom"⟩]).toOption.map
        ExecutionResult.timing_results = some [1] := by
  constructor <;> decide

lemma collectTimings_append_fail {good : List IterRun} {bad : IterRun}
    (rest : List IterRun) (hgood : ∀ it ∈ good, it.ok = true)
    (hbad : bad.ok = false) :
    collectTimings (good ++ bad :: rest) = good.map IterRun.elapsed := by
  induction good with
  | nil => simp [collectTimings, hbad]
  | cons it good ih =>
    have hit : it.ok = true := hgood it (List.mem_cons_self ..)
    have ihs := ih (fun i hi => hgood i (List.mem_cons_of_mem _ hi))
    simp [collectTimings, hit, ihs]

/-- Claim C2 as amended: when a timed iteration fails after at least one
iteration succeeded, the sandbox stops iterating at the failure (the
outcomes after it are never consulted) and returns a result that carries
exactly the timings collected before the failure — but marked
`success = true`, not failed.  When the first timed iteration fails, the
run returns the `success = false` dict with an empty timing list.  And for
every run that returns a result at all, `success = false` holds exactly
when no iteration succeeded, and such a result always carries an empty
timing list.  (With zero timed iterations the failure branch raises
`UnboundLocalError` and returns nothing.) -/
theorem C2_first_failure_keeps_timings (impl testName category : String)
    (params : Combo) (good : List IterRun) (bad : IterRun)
    (rest : List IterRun) (hgood : ∀ it ∈ good, it.ok = true)
    (hbad : bad.ok = false) (hne : good ≠ []) :
    (∃ r, run_single_test impl testName category params
        (good ++ bad :: rest) = .ok r ∧
      r.success = true ∧ r.timing_results = good.map IterRun.elapsed) ∧
    (∀ rest2 : List IterRun, ∃ r,
      run_single_test impl testName category params (bad :: rest2) = .ok r ∧
        r.success = false ∧ r.timing_results = []) ∧
    (∀ (iters : List IterRun) (r : ExecutionResult),
      run_single_test impl testName category params iters = .ok r →
        (r.success = false ↔ collectTimings iters = []) ∧
        (r.success = false → r.timing_results = [])) := by
  have hct := collectTimings_append_fail rest hgood hbad
  have hmt : (good.map IterRun.elapsed).isEmpty = false := by
    rcases good with _ | ⟨g, gs⟩
    · exact absurd rfl hne
    · rfl
  refine ⟨?_, ?_, ?_⟩
  · simp only [run_single_test, hct, hmt, Bool.false_eq_true, if_false]
    exact ⟨_, rfl, rfl, rfl⟩
  · intro rest2
    have hc2 : collectTimings (bad :: rest2) = [] := by
      simp [collectTimings, hbad]
    simp only [run_single_test, hc2, List.isEmpty_nil, if_true]
    exact ⟨_, rfl, rfl, rfl⟩
  · intro iters r h
    cases hemp : (collectTimings iters).isEmpty with
    | true =>
      have hcoll : collectTimings iters = [] := by simpa using hemp
      rcases iters with _ | ⟨it, rest3⟩
      · simp [run_single_test, collectTimings] at h
      · simp only [run_single_test, hemp, if_true] at h
        injection h with h2
        subst h2
        exact ⟨⟨fun _ => hcoll, fun _ => rfl⟩, fun _ => rfl⟩
    | false =>
      have hne2 : ¬ collectTimings iters = [] := by
        intro h0
        rw [h0] at hemp
        simp at hemp
      simp only [run_single_test, hemp, Bool.false_eq_true, if_false] at h
      injection h with h2
      subst h2
      refine ⟨⟨fun h2 => absurd h2 (by simp), fun h2 => absurd h2 hne2⟩,
        fun h2 => absurd h2 (by simp)⟩

theorem C2_first_failure_keeps_timings_witness :
    ((∀ it ∈ [(⟨1, true, ""⟩ : IterRun)], it.ok = true) ∧
      (⟨2, false, "boom"⟩ : IterRun).ok = false ∧
      [(⟨1, true, ""⟩ : IterRun)] ≠ []) ∧
    (∃ r, run_single_test "lambdust" "fib" "micro" []
        ([(⟨1, true, ""⟩ : IterRun)] ++ (⟨2, false, "boom"⟩ : IterRun) ::
          []) = .ok r ∧
      r.success = true ∧
      r.timing_results = [(⟨1, true, ""⟩ : IterRun)].map IterRun.elapsed) ∧
    (∃ r, run_single_test "lambdust" "fib" "micro" []
        ((⟨2, false, "boom"⟩ : IterRun) :: []) = .ok r ∧
      r.success = false ∧ r.timing_results = []) :=
  ⟨⟨by decide, by decide, by decide⟩,
    (C2_first_failure_keeps_timings "lambdust" "fib" "micro" []
      [⟨1, true, ""⟩] ⟨2, false, "boom"⟩ [] (by decide) (by decide)
      (by decide)).1,
    (C2_first_failure_keeps_timings "lambdust" "fib" "micro" []
      [⟨1, true, ""⟩] ⟨2, false, "boom"⟩ [] (by decide) (by decide)
      (by decide)).2.1 []⟩

/-- How the body of `run_single_test`'s `try` block can exit: returning one
of the two result dicts, or propagating an exception (unhandled errors;
timeouts and process failures are caught inside `execute_test_file` and
come back as a returned result). -/
inductive BodyOutcome where
  | ret (r : ExecutionResult)
  | exc (msg : String)

/-- The temp-file lifecycle of `run_single_test` over an explicit
file-system state (the list of existing file names):
`tempfile.NamedTemporaryFile(delete=False)` creates the file, the `try`
body runs, and the `finally` clause `os.unlink(temp_file)` removes it on
every exit path, normal or exceptional. -/
def run_single_test_cleanup (fs : List String) (temp : String)
    (body : BodyOutcome) : List String × BodyOutcome :=
  ((temp :: fs).erase temp, body)

/-- Claim C8: for every starting file-system state and every way the body
exits — success result, failure result, or an exception such as a timeout —
the temporary test-source file does not survive `run_single_test`: the
`finally` clause restores the original file set. -/
theorem C8_temp_file_removed (fs : List String) (temp : String)
    (body : BodyOutcome) (hfresh : temp ∉ fs) :
    (run_single_test_cleanup fs temp body).1 = fs ∧
      temp ∉ (run_single_test_cleanup fs temp body).1 ∧
      (run_single_test_cleanup fs temp body).2 = body := by
  refine ⟨?_, ?_, rfl⟩
  · show (temp :: fs).erase temp = fs
    simp [List.erase_cons_head]
  · show temp ∉ (temp :: fs).erase temp
    simp [List.erase_cons_head, hfresh]

theorem C8_temp_file_removed_witness :
    ("tmp_test.scm" ∉ ["other.json"] ∧
      (run_single_test_cleanup ["other.json"] "tmp_test.scm"
          (BodyOutcome.exc "Test timed out")).1 = ["other.json"] ∧
      "tmp_test.scm" ∉ (run_single_test_cleanup ["other.json"] "tmp_test.scm"
          (BodyOutcome.exc "Test timed out")).1 ∧
      (run_single_test_cleanup ["other.json"] "tmp_test.scm"
          (BodyOutcome.exc "Test timed out")).2 =
        BodyOutcome.exc "Test timed out") :=
  ⟨by decide,
    C8_temp_file_removed ["other.json"] "tmp_test.scm"
      (BodyOutcome.exc "Test timed out") (by decide)⟩

/-- Arithmetic mean `sum(l) / len(l)` (division by zero yielding 0 never
arises at call sites, which all guard against empty input). -/
def meanQ (l : List ℚ) : ℚ := l.sum / (l.length : ℚ)

/-- Sum of squared deviations from the mean, `sum((x - mean) ** 2 ...)`. -/
def sqDevSum (l : List ℚ) : ℚ := (l.map (fun x => (x - meanQ l) ^ 2)).sum

/-- `BenchmarkRunner.calculate_descriptive_stats`: a Python dict of
statistics, empty for empty input; note that the `q25`/`q75` entries are
emitted unconditionally, whatever the sample size. -/
noncomputable def calculate_descriptive_stats (values : List ℚ) :
    List (String × ℝ) :=
  if values.isEmpty then []
  else
    let v := values.mergeSort (· ≤ ·)
    let n := v.length
    let mean : ℚ := v.sum / (n : ℚ)
    let variance : ℚ :=
      if n > 1 then (v.map (fun x => (x - mean) ^ 2)).sum / ((n : ℚ) - 1) else 0
    let median : ℚ :=
      if n % 2 = 1 then v.getD (n / 2) 0
      else (v.getD (n / 2 - 1) 0 + v.getD (n / 2) 0) / 2
    [("count", (n : ℝ)), ("mean", (mean : ℝ)), ("median", (median : ℝ)),
     ("std_dev", Real.sqrt (variance : ℝ)),
     ("min", (v.getD 0 0 : ℝ)), ("max", (v.getD (n - 1) 0 : ℝ)),
     ("q25", (v.getD (n / 4) 0 : ℝ)), ("q75", (v.getD (3 * n / 4) 0 : ℝ))]

/-- `statistics.median`: mean of the two central values of the sorted data
for even counts, the exact central value for odd counts. -/
def medianStat (l : List ℚ) : ℚ :=
  let v := l.mergeSort (· ≤ ·)
  let n := v.length
  if n % 2 = 1 then v.getD (n / 2) 0
  else (v.getD (n / 2 - 1) 0 + v.getD (n / 2) 0) / 2

/-- `statistics.stdev`: square root of the sample variance. -/
noncomputable def stdevStat (l : List ℚ) : ℝ :=
  Real.sqrt ((sqDevSum l / ((l.length : ℚ) - 1) : ℚ) : ℝ)

/-- `statistics.quantiles(data, n=n)` with the default exclusive method:
sort, rescale `j = i*(ld+1) // n`, clamp `j` to `[1, ld-1]`, and
interpolate with exact integer weights.  (The source's callers only invoke
it with at least four data points, away from the `ld < 2` error case.) -/
def quantilesExclusive (data : List ℚ) (n : ℕ) : List ℚ :=
  let d := data.mergeSort (· ≤ ·)
  let ld := d.length
  let m := ld + 1
  (List.range (n - 1)).map (fun i0 =>
    let i := i0 + 1
    let j := min (max (i * m / n) 1) (ld - 1)
    let delta : ℤ := (i * m : ℤ) - ((j : ℤ) * (n : ℤ))
    (d.getD (j - 1) 0 * ((n : ℚ) - (delta : ℚ)) + d.getD j 0 * (delta : ℚ)) /
      (n : ℚ))

/-- The `impl_stats` dict built per (test, implementation) pair by
`BenchmarkProcessor.generate_statistics`, from the extracted `durations`,
`user_times` and `memory_usage` lists: base statistics always, percentile
entries only when the sample is large enough (`>= 4`, `>= 10`), user-time
and memory blocks only when those lists are non-empty.  No entry is built
at all when `durations` is empty (`if not durations: continue`). -/
noncomputable def impl_stats (durations user_times memory_usage : List ℚ) :
    List (String × ℝ) :=
  if durations.isEmpty then []
  else
    [("count", ((durations.length : ℕ) : ℝ)),
     ("duration_mean", (meanQ durations : ℝ)),
     ("duration_median", (medianStat durations : ℝ)),
     ("duration_stdev",
       if durations.length > 1 then stdevStat durations else 0),
     ("duration_min", ((durations.min?.getD 0 : ℚ) : ℝ)),
     ("duration_max", ((durations.max?.getD 0 : ℚ) : ℝ))]
    ++ (if durations.length ≥ 4 then
          [("duration_p25", ((quantilesExclusive durations 4).getD 0 0 : ℝ)),
           ("duration_p75", ((quantilesExclusive durations 4).getD 2 0 : ℝ))]
        else [])
    ++ (if durations.length ≥ 10 then
          [("duration_p90", ((quantilesExclusive durations 10).getD 8 0 : ℝ)),
           ("duration_p95", ((quantilesExclusive durations 20).getD 18 0 : ℝ)),
           ("duration_p99", ((quantilesExclusive durations 100).getD 98 0 : ℝ))]
        else [])
    ++ (if user_times.isEmpty then []
        else
          [("user_time_mean", (meanQ user_times : ℝ)),
           ("user_time_median", (medianStat user_times : ℝ)),
           ("user_time_stdev",
             if user_times.length > 1 then stdevStat user_times else 0)])
    ++ (if memory_usage.isEmpty then []
        else
          [("memory_mean_kb", (meanQ memory_usage : ℝ)),
           ("memory_median_kb", (medianStat memory_usage : ℝ)),
           ("memory_max_kb", ((memory_usage.max?.getD 0 : ℚ) : ℝ)),
           ("memory_min_kb", ((memory_usage.min?.getD 0 : ℚ) : ℝ))])

/-- Claim C5, counterexample: the benchmark runner's descriptive statistics
for a three-point sample do emit `q25` and `q75` entries, contradicting the
claim that percentile fields are omitted for samples of fewer than four
points. -/
theorem C5_counterexample :
    "q25" ∈ (calculate_descriptive_stats [1, 2, 3]).map Prod.fst ∧
    "q75" ∈ (calculate_descriptive_stats [1, 2, 3]).map Prod.fst ∧
    ([1, 2, 3] : List ℚ).length < 4 := by
  refine ⟨?_, ?_, by decide⟩ <;> simp [calculate_descriptive_stats]

/-- Claim C5 as amended: the results processor's statistics
(`generate_statistics`) omit every duration percentile field for samples of
fewer than four points, but the benchmark runner's
`calculate_descriptive_stats` emits its `q25`/`q75` fields for every
non-empty sample, however small. -/
theorem C5_small_sample_percentiles (d u m : List ℚ) (hne : d ≠ [])
    (hlt : d.length < 4) :
    ("duration_p25" ∉ (impl_stats d u m).map Prod.fst ∧
      "duration_p75" ∉ (impl_stats d u m).map Prod.fst ∧
      "duration_p90" ∉ (impl_stats d u m).map Prod.fst ∧
      "duration_p95" ∉ (impl_stats d u m).map Prod.fst ∧
      "duration_p99" ∉ (impl_stats d u m).map Prod.fst) ∧
    "q25" ∈ (calculate_descriptive_stats d).map Prod.fst ∧
    "q75" ∈ (calculate_descriptive_stats d).map Prod.fst := by
  have hde : d.isEmpty = false := by
    rcases d with _ | ⟨x, xs⟩
    · exact absurd rfl hne
    · rfl
  have h4 : ¬ d.length ≥ 4 := by omega
  have h10 : ¬ d.length ≥ 10 := by omega
  constructor
  · refine ⟨?_, ?_, ?_, ?_, ?_⟩ <;>
      · simp only [impl_stats, hde, Bool.false_eq_true, if_false, h4, h10,
          List.append_nil, List.nil_append, List.map_append, List.mem_append]
        split_ifs <;> simp
  · constructor <;> simp [calculate_descriptive_stats, hde]

theorem C5_small_sample_percentiles_witness :
    (([1, 2, 3] : List ℚ) ≠ [] ∧ ([1, 2, 3] : List ℚ).length < 4) ∧
    (("duration_p25" ∉ (impl_stats [1, 2, 3] [] []).map Prod.fst ∧
       "duration_p75" ∉ (impl_stats [1, 2, 3] [] []).map Prod.fst ∧
       "duration_p90" ∉ (impl_stats [1, 2, 3] [] []).map Prod.fst ∧
       "duration_p95" ∉ (impl_stats [1, 2, 3] [] []).map Prod.fst ∧
       "duration_p99" ∉ (impl_stats [1, 2, 3] [] []).map Prod.fst) ∧
      "q25" ∈ (calculate_descriptive_stats [1, 2, 3]).map Prod.fst ∧
      "q75" ∈ (calculate_descriptive_stats [1, 2, 3]).map Prod.fst) :=
  ⟨⟨by decide, by decide⟩,
    C5_small_sample_percentiles [1, 2, 3] [] [] (by decide) (by decide)⟩

/-- The dict returned by `compare_implementations`; the mean and winner
keys are absent from the degenerate empty-input dict, hence `Option`. -/
structure Comparison where
  ia : String
  ib : String
  test : String
  mean_a : Option ℚ
  mean_b : Option ℚ
  effect_size : ℝ
  significant : Prop
  perf_ratio : ℚ
  winner : Option String

/-- Pooled standard deviation of `compare_implementations`:
`sqrt((sum((x-meanA)^2) + sum((y-meanB)^2)) / (nA + nB - 2))`. -/
noncomputable def pooledStd (a b : List ℚ) : ℝ :=
  Real.sqrt (((sqDevSum a + sqDevSum b) / ((a.length + b.length - 2 : ℕ) : ℚ) : ℚ) : ℝ)

/-- Effect size of `compare_implementations` (Cohen's d approximation):
`(meanA - meanB) / pooledStd` when the pooled standard deviation is
positive, `0.0` otherwise. -/
noncomputable def effectSize (a b : List ℚ) : ℝ :=
  if pooledStd a b > 0 then (((meanQ a : ℚ) : ℝ) - ((meanQ b : ℚ) : ℝ)) / pooledStd a b
  else 0

/-- `BenchmarkRunner.compare_implementations`.  With an empty input it
returns the degenerate insignificant dict; otherwise, when both samples are
singletons the divisor `nA + nB - 2` is zero and the Python float division
raises `ZeroDivisionError` (modelled as `Except.error`); in the remaining
cases it builds the full comparison dict, declaring as winner
implementation A when `mean_a < mean_b` and implementation B otherwise
(so also on exact ties). -/
noncomputable def compare_implementations (data_a data_b : List ℚ)
    (impl_a impl_b testKey : String) : Except String Comparison :=
  if data_a.isEmpty ∨ data_b.isEmpty then
    .ok ⟨impl_a, impl_b, testKey, none, none, 0, False, 1, none⟩
  else if data_a.length + data_b.length - 2 = 0 then .error "ZeroDivisionError"
  else
    .ok ⟨impl_a, impl_b, testKey, some (meanQ data_a), some (meanQ data_b),
      effectSize data_a data_b,
      |effectSize data_a data_b| > 0.5,
      if meanQ data_a > 0 then meanQ data_b / meanQ data_a else 1,
      some (if meanQ data_a < meanQ data_b then impl_a else impl_b)⟩

/-- Claim C1, counterexample: on exactly equal mean times (identical
two-sample data) the declared winner is implementation B, not
implementation A as the claim states. -/
theorem C1_counterexample :
    (compare_implementations [1, 1] [1, 1] "A" "B" "t").toOption.map
        Comparison.winner = some (some "B") ∧
      some (some "B") ≠ some (some "A") := by
  refine ⟨?_, by simp⟩
  have h1 : (([1, 1] : List ℚ).isEmpty ∨ ([1, 1] : List ℚ).isEmpty) = False := by
    simp
  have hm : meanQ [1, 1] = 1 := by norm_num [meanQ]
  simp only [compare_implementations, h1, if_false]
  norm_num [hm]
  exact ⟨_, rfl, rfl⟩

/-- Claim C1 as amended: for every comparison that completes (both sample
sets non-empty and not both singletons, so no `ZeroDivisionError`), the
declared winner is the implementation with the strictly lower mean time,
and on exact ties of the means the winner is implementation B, the second
in declared order. -/
theorem C1_winner_lower_mean (a b : List ℚ) (ia ib t : String)
    (ha : a ≠ []) (hb : b ≠ []) (hlen : a.length + b.length ≠ 2) :
    ∃ c, compare_implementations a b ia ib t = .ok c ∧
      (meanQ a < meanQ b → c.winner = some ia) ∧
      (meanQ b < meanQ a → c.winner = some ib) ∧
      (meanQ a = meanQ b → c.winner = some ib) := by
  have hae : a.isEmpty = false := by
    rcases a with _ | _
    · exact absurd rfl ha
    · rfl
  have hbe : b.isEmpty = false := by
    rcases b with _ | _
    · exact absurd rfl hb
    · rfl
  have h1 : (a.isEmpty ∨ b.isEmpty) = False := by simp [hae, hbe]
  have h2 : a.length + b.length - 2 ≠ 0 := by
    rcases a with _ | ⟨x, xs⟩
    · exact absurd rfl ha
    rcases b with _ | ⟨y, ys⟩
    · exact absurd rfl hb
    simp only [List.length_cons] at hlen ⊢
    omega
  simp only [compare_implementations, h1, if_false, if_neg h2]
  refine ⟨_, rfl, ?_, ?_, ?_⟩
  · intro hlt
    simp [if_pos hlt]
  · intro hlt
    have : ¬ meanQ a < meanQ b := not_lt_of_gt hlt
    simp [if_neg this]
  · intro heq
    have : ¬ meanQ a < meanQ b := by rw [heq]; exact lt_irrefl _
    simp [if_neg this]

theorem C1_winner_lower_mean_witness :
    (([2, 2] : List ℚ) ≠ [] ∧ ([1, 1] : List ℚ) ≠ [] ∧
      ([2, 2] : List ℚ).length + ([1, 1] : List ℚ).length ≠ 2) ∧
    (∃ c, compare_implementations [2, 2] [1, 1] "A" "B" "t" = .ok c ∧
      (meanQ [2, 2] < meanQ [1, 1] → c.winner = some "A") ∧
      (meanQ [1, 1] < meanQ [2, 2] → c.winner = some "B") ∧
      (meanQ [2, 2] = meanQ [1, 1] → c.winner = some "B")) :=
  ⟨⟨by decide, by decide, by decide⟩,
    C1_winner_lower_mean [2, 2] [1, 1] "A" "B" "t" (by decide) (by decide)
      (by decide)⟩

/-- Claim C9, counterexample: comparing the non-empty sample `[1]` against
itself does not yield an effect size at all — the pooled-variance divisor
`nA + nB - 2` is zero and the comparison raises `ZeroDivisionError`. -/
theorem C9_counterexample :
    compare_implementations [1] [1] "A" "B" "t" = .error "ZeroDivisionError" := by
  have h1 : (([1] : List ℚ).isEmpty ∨ ([1] : List ℚ).isEmpty) = False := by simp
  simp [compare_implementations, h1]

/-- Claim C9 as amended: for every sample set with at least two points,
comparing it against itself yields effect size exactly 0 (whether or not
the pooled standard deviation is 0) and `significant = false`; only the
one-point sample degenerates, raising `ZeroDivisionError`. -/
theorem C9_self_comparison (a : List ℚ) (ia ib t : String)
    (hlen : 2 ≤ a.length) :
    ∃ c, compare_implementations a a ia ib t = .ok c ∧
      c.effect_size = 0 ∧ ¬ c.significant := by
  have hae : a.isEmpty = false := by
    rcases a with _ | _
    · simp at hlen
    · rfl
  have h1 : (a.isEmpty ∨ a.isEmpty) = False := by simp [hae]
  have h2 : a.length + a.length - 2 ≠ 0 := by omega
  have heff : effectSize a a = 0 := by
    unfold effectSize
    split
    · simp
    · rfl
  simp only [compare_implementations, h1, if_false, if_neg h2]
  refine ⟨_, rfl, heff, ?_⟩
  show ¬ |effectSize a a| > 0.5
  rw [heff]
  norm_num

theorem C9_self_comparison_witness :
    2 ≤ ([1, 2] : List ℚ).length ∧
    (∃ c, compare_implementations [1, 2] [1, 2] "A" "B" "t" = .ok c ∧
      c.effect_size = 0 ∧ ¬ c.significant) :=
  ⟨by decide, C9_self_comparison [1, 2] "A" "B" "t" (by decide)⟩

/-- The nested result grouping of `perform_statistical_analysis`:
`grouped_results[test_key][impl_id] = result['timing_results']`, where
`test_key = f"{category}_{test_name}"` and unsuccessful results are
skipped. -/
def addResult (g : List (String × List (String × List ℚ))) (implId : String)
    (r : ExecutionResult) : List (String × List (String × List ℚ)) :=
  if r.success then
    let key := r.category ++ "_" ++ r.test_name
    aset g key (aset ((aget g key).getD []) implId r.timing_results)
  else g

/-- The grouping loop over the per-implementation result lists. -/
def groupResults (results : List (String × List ExecutionResult)) :
    List (String × List (String × List ℚ)) :=
  results.foldl
    (fun g pr => pr.2.foldl (fun g' r => addResult g' pr.1 r) g) []

/-- The descriptive-statistics section for one test group: one entry
`f"{test_key}_{impl_id}"` per implementation with non-empty timings. -/
noncomputable def statsForTest (testKey : String)
    (td : List (String × List ℚ)) : List (String × List (String × ℝ)) :=
  td.filterMap (fun it =>
    if it.2.isEmpty then none
    else some (testKey ++ "_" ++ it.1, calculate_descriptive_stats it.2))

/-- The ordered upper-triangle pairs produced by the double-index loop
`for i in range(n): for j in range(i+1, n)`. -/
def pairsUpper {α : Type} : List α → List (α × α)
  | [] => []
  | x :: xs => xs.map (fun y => (x, y)) ++ pairsUpper xs

/-- The pairwise comparisons for one test group (the redundant
`impl_a in test_data and impl_b in test_data` check of the source is
always true there); an exception from any single comparison aborts the
whole analysis, as in Python. -/
noncomputable def comparisonsForTest (testKey : String)
    (td : List (String × List ℚ)) : Except String (List Comparison) :=
  (pairsUpper td).mapM (fun ab =>
    compare_implementations ab.1.2 ab.2.2 ab.1.1 ab.2.1 testKey)

/-- The statistical-analysis result document (descriptive statistics dict
and pairwise comparison list; the `effect_sizes` and `outliers` sections of
the source are never written to and stay empty). -/
structure AnalysisResults where
  descriptive_stats : List (String × List (String × ℝ))
  pairwise_comparisons : List Comparison

/-- `BenchmarkRunner.perform_statistical_analysis`: group the successful
results, then derive descriptive statistics and every pairwise comparison
from the grouped timing data alone. -/
noncomputable def perform_statistical_analysis
    (results : List (String × List ExecutionResult)) :
    Except String AnalysisResults := do
  let g := groupResults results
  let comps ← g.mapM (fun kv => comparisonsForTest kv.1 kv.2)
  pure ⟨g.flatMap (fun kv => statsForTest kv.1 kv.2), comps.flatMap id⟩

/-- One row of the baseline file consumed by `detect_regressions`. -/
structure BaselineEntry where
  test_name : String
  category : String
  parameters : Combo
  ops_per_second : ℚ
deriving DecidableEq, Repr

/-- A regression row of `detect_regressions` (the `degradation_percent`
field stores `abs(change_percent)`). -/
structure RegressionRecord where
  implementation : String
  test : String
  category : String
  degradation_percent : ℚ
  current_performance : ℚ
  baseline_performance : ℚ
deriving DecidableEq, Repr

/-- An improvement row of `detect_regressions`. -/
structure ImprovementRecord where
  implementation : String
  test : String
  category : String
  improvement_percent : ℚ
  current_performance : ℚ
  baseline_performance : ℚ
deriving DecidableEq, Repr

/-- The inner matching loop of `detect_regressions`: the first baseline
row agreeing on test name, category and the exact parameter combination. -/
def findBaseline (bl : List BaselineEntry) (r : ExecutionResult) :
    Option BaselineEntry :=
  bl.find? (fun b =>
    decide (b.test_name = r.test_name ∧ b.category = r.category ∧
      b.parameters = r.parameters))

/-- The per-result body of `detect_regressions`: skip unsuccessful results,
skip results with no matching baseline row and matches with non-positive
baseline ops/second; otherwise classify the percentage change
`((current - baseline) / baseline) * 100` against the one-sided 5%
thresholds, emitting exactly one record (or none, in the stable band). -/
def processResult (bl : List BaselineEntry) (implId : String)
    (r : ExecutionResult) : List RegressionRecord × List ImprovementRecord :=
  if r.success then
    match findBaseline bl r with
    | none => ([], [])
    | some bt =>
      let current_perf := r.ops_per_second.getD 0
      let baseline_perf := bt.ops_per_second
      if baseline_perf > 0 then
        let change_percent := ((current_perf - baseline_perf) / baseline_perf) * 100
        if change_percent < -5 then
          ([⟨implId, r.test_name, r.category, |change_percent|,
             current_perf, baseline_perf⟩], [])
        else if change_percent > 5 then
          ([], [⟨implId, r.test_name, r.category, change_percent,
                 current_perf, baseline_perf⟩])
        else ([], [])
      else ([], [])
  else ([], [])

/-- `BenchmarkRunner.detect_regressions` over a loaded baseline dict:
implementations missing from the baseline are skipped entirely, and the
per-result records accumulate in iteration order. -/
def detect_regressions (baseline : List (String × List BaselineEntry))
    (results : List (String × List ExecutionResult)) :
    List RegressionRecord × List ImprovementRecord :=
  results.foldl
    (fun acc pr =>
      match aget baseline pr.1 with
      | none => acc
      | some bl =>
          pr.2.foldl
            (fun acc2 r =>
              let rec2 := processResult bl pr.1 r
              (acc2.1 ++ rec2.1, acc2.2 ++ rec2.2))
            acc)
    ([], [])

/-- Claim C4: for a successful result matched to a baseline row with
positive ops/second, the detector computes
`((current - baseline) / baseline) * 100` and classifies strictly
one-sided at 5%: below -5% exactly one regression record (storing the
absolute change), above +5% exactly one improvement record, and anything
in the closed band [-5%, +5%] no record at all. -/
theorem C4_regression_thresholds (bl : List BaselineEntry) (implId : String)
    (r : ExecutionResult) (bt : BaselineEntry) (hs : r.success = true)
    (hf : findBaseline bl r = some bt) (hpos : 0 < bt.ops_per_second) :
    (((r.ops_per_second.getD 0 - bt.ops_per_second) / bt.ops_per_second) * 100
        < -5 →
      processResult bl implId r =
        ([⟨implId, r.test_name, r.category,
           |((r.ops_per_second.getD 0 - bt.ops_per_second) /
              bt.ops_per_second) * 100|,
           r.ops_per_second.getD 0, bt.ops_per_second⟩], [])) ∧
    (5 < ((r.ops_per_second.getD 0 - bt.ops_per_second) / bt.ops_per_second)
        * 100 →
      processResult bl implId r =
        ([], [⟨implId, r.test_name, r.category,
           ((r.ops_per_second.getD 0 - bt.ops_per_second) /
              bt.ops_per_second) * 100,
           r.ops_per_second.getD 0, bt.ops_per_second⟩])) ∧
    (-5 ≤ ((r.ops_per_second.getD 0 - bt.ops_per_second) / bt.ops_per_second)
        * 100 →
      ((r.ops_per_second.getD 0 - bt.ops_per_second) / bt.ops_per_second)
        * 100 ≤ 5 →
      processResult bl implId r = ([], [])) := by
  simp only [processResult, hs, if_true, hf, if_pos hpos]
  refine ⟨?_, ?_, ?_⟩
  · intro h
    rw [if_pos h]
  · intro h
    have h1 : ¬ ((r.ops_per_second.getD 0 - bt.ops_per_second) /
        bt.ops_per_second) * 100 < -5 := by linarith
    rw [if_neg h1, if_pos h]
  · intro h1 h2
    have ha : ¬ ((r.ops_per_second.getD 0 - bt.ops_per_second) /
        bt.ops_per_second) * 100 < -5 := by linarith
    have hb : ¬ ((r.ops_per_second.getD 0 - bt.ops_per_second) /
        bt.ops_per_second) * 100 > 5 := by linarith
    rw [if_neg ha, if_neg hb]

theorem C4_regression_thresholds_witness :
    ((⟨"lambdust", "fib", "micro", [], true, none, some 90, [], none, none⟩ :
        ExecutionResult).success = true ∧
      findBaseline [⟨"fib", "micro", [], 100⟩]
        ⟨"lambdust", "fib", "micro", [], true, none, some 90, [], none, none⟩ =
        some ⟨"fib", "micro", [], 100⟩ ∧
      (0 : ℚ) < 100) ∧
    processResult [⟨"fib", "micro", [], 100⟩] "lambdust"
        ⟨"lambdust", "fib", "micro", [], true, none, some 90, [], none, none⟩ =
      ([⟨"lambdust", "fib", "micro", 10, 90, 100⟩], []) ∧
    processResult [⟨"fib", "micro", [], 100⟩] "lambdust"
        ⟨"lambdust", "fib", "micro", [], true, none, some 110, [], none,
          none⟩ =
      ([], [⟨"lambdust", "fib", "micro", 10, 110, 100⟩]) ∧
    processResult [⟨"fib", "micro", [], 100⟩] "lambdust"
        ⟨"lambdust", "fib", "micro", [], true, none, some 96, [], none, none⟩ =
      ([], []) := by
  refine ⟨⟨rfl, by decide, by norm_num⟩, ?_, ?_, ?_⟩
  · have h := (C4_regression_thresholds [⟨"fib", "micro", [], 100⟩] "lambdust"
      ⟨"lambdust", "fib", "micro", [], true, none, some 90, [], none, none⟩
      ⟨"fib", "micro", [], 100⟩ rfl (by decide) (by norm_num)).1 (by norm_num)
    norm_num at h
    exact h
  · have h := (C4_regression_thresholds [⟨"fib", "micro", [], 100⟩] "lambdust"
      ⟨"lambdust", "fib", "micro", [], true, none, some 110, [], none, none⟩
      ⟨"fib", "micro", [], 100⟩ rfl (by decide) (by norm_num)).2.1 (by norm_num)
    norm_num at h
    exact h
  · exact (C4_regression_thresholds [⟨"fib", "micro", [], 100⟩] "lambdust"
      ⟨"lambdust", "fib", "micro", [], true, none, some 96, [], none, none⟩
      ⟨"fib", "micro", [], 100⟩ rfl (by decide) (by norm_num)).2.2
      (by norm_num) (by norm_num)

lemma addResult_failed {g : List (String × List (String × List ℚ))}
    {implId : String} {r : ExecutionResult} (h : r.success = false) :
    addResult g implId r = g := by
  simp [addResult, h]

lemma processResult_failed {bl : List BaselineEntry} {implId : String}
    {r : ExecutionResult} (h : r.success = false) :
    processResult bl implId r = ([], []) := by
  simp [processResult, h]

lemma foldl_addResult_filter (implId : String) (rs : List ExecutionResult) :
    ∀ g, (rs.filter (fun r => r.success)).foldl
        (fun g' r => addResult g' implId r) g =
      rs.foldl (fun g' r => addResult g' implId r) g := by
  induction rs with
  | nil => intro g; rfl
  | cons r rs ih =>
    intro g
    by_cases h : r.success = true
    · rw [List.filter_cons_of_pos h]
      exact ih (addResult g implId r)
    · have hf : r.success = false := by
        rcases hr : r.success
        · rfl
        · exact absurd hr h
      rw [List.filter_cons_of_neg h]
      show _ = rs.foldl (fun g' r => addResult g' implId r) (addResult g implId r)
      rw [addResult_failed hf]
      exact ih g

lemma groupResults_filter (results : List (String × List ExecutionResult)) :
    groupResults (results.map (fun pr =>
        (pr.1, pr.2.filter (fun r => r.success)))) = groupResults results := by
  unfold groupResults
  rw [List.foldl_map]
  have hfun : (fun (g : List (String × List (String × List ℚ)))
        (pr : String × List ExecutionResult) =>
        (pr.2.filter (fun r => r.success)).foldl
          (fun g' r => addResult g' pr.1 r) g) =
      (fun g pr => pr.2.foldl (fun g' r => addResult g' pr.1 r) g) := by
    funext g pr
    exact foldl_addResult_filter pr.1 pr.2 g
  rw [hfun]

lemma foldl_process_filter (bl : List BaselineEntry) (implId : String)
    (rs : List ExecutionResult) :
    ∀ acc : List RegressionRecord × List ImprovementRecord,
    (rs.filter (fun r => r.success)).foldl
        (fun acc2 r => ((acc2.1 ++ (processResult bl implId r).1,
          acc2.2 ++ (processResult bl implId r).2) :
            List RegressionRecord × List ImprovementRecord)) acc =
      rs.foldl (fun acc2 r => (acc2.1 ++ (processResult bl implId r).1,
          acc2.2 ++ (processResult bl implId r).2)) acc := by
  induction rs with
  | nil => intro acc; rfl
  | cons r rs ih =>
    intro acc
    by_cases h : r.success = true
    · rw [List.filter_cons_of_pos h]
      exact ih _
    · have hf : r.success = false := by
        rcases hr : r.success
        · rfl
        · exact absurd hr h
      rw [List.filter_cons_of_neg h]
      show _ = rs.foldl _ ((acc.1 ++ (processResult bl implId r).1,
        acc.2 ++ (processResult bl implId r).2))
      rw [processResult_failed hf]
      simp only [List.append_nil]
      exact ih acc

/-- Claim C7: a failed ExecutionResult contributes nothing downstream —
dropping all unsuccessful results from every implementation's list changes
neither the statistical analysis (grouping, descriptive statistics and all
pairwise comparisons are computed from the grouped successful timings
alone) nor the regression/improvement detection. -/
theorem C7_failed_results_contribute_nothing
    (results : List (String × List ExecutionResult))
    (baseline : List (String × List BaselineEntry)) :
    perform_statistical_analysis (results.map (fun pr =>
        (pr.1, pr.2.filter (fun r => r.success)))) =
      perform_statistical_analysis results ∧
    groupResults (results.map (fun pr =>
        (pr.1, pr.2.filter (fun r => r.success)))) = groupResults results ∧
    detect_regressions baseline (results.map (fun pr =>
        (pr.1, pr.2.filter (fun r => r.success)))) =
      detect_regressions baseline results := by
  refine ⟨?_, groupResults_filter results, ?_⟩
  · unfold perform_statistical_analysis
    rw [groupResults_filter]
  · unfold detect_regressions
    rw [List.foldl_map]
    have hfun : (fun (acc : List RegressionRecord × List ImprovementRecord)
          (pr : String × List ExecutionResult) =>
          match aget baseline pr.1 with
          | none => acc
          | some bl =>
              (pr.2.filter (fun r => r.success)).foldl
                (fun acc2 r =>
                  ((acc2.1 ++ (processResult bl pr.1 r).1,
                    acc2.2 ++ (processResult bl pr.1 r).2) :
                      List RegressionRecord × List ImprovementRecord))
                acc) =
        (fun acc pr =>
          match aget baseline pr.1 with
          | none => acc
          | some bl =>
              pr.2.foldl
                (fun acc2 r =>
                  (acc2.1 ++ (processResult bl pr.1 r).1,
                    acc2.2 ++ (processResult bl pr.1 r).2))
                acc) := by
      funext acc pr
      rcases aget baseline pr.1 with _ | bl
      · rfl
      · exact foldl_process_filter bl pr.1 pr.2 acc
    rw [hfun]
